import Mathlib

/-!
Shallow embedding of the file-storage HTTP service (`src/api/main.go`).

The service is a facade over an S3-compatible object store with four
handlers: list, upload, get, delete.  The upload path streams each
multipart file part through an in-memory pipe: a producer reads the part
in 32 KiB chunks, keeps a running byte counter, and aborts the pipe with
a size-exceeded error as soon as the counter strictly exceeds the
50 MiB ceiling; the consuming `s3manager.Upload` call then fails and no
object is stored.

Bytes are modelled as `List Nat`, Go strings as Lean `String`, and the
backend object store (an external collaborator, spec section 4.1) as an
association list of key/object pairs together with an availability flag.
Go error values are modelled by their message strings, because the
handler inspects errors exclusively through `err.Error()` string
matching (`strings.Contains`, main.go line 250).
-/

set_option autoImplicit false

namespace FileStorage

/-- File content: a sequence of bytes (`List Nat`, each entry one byte). -/
abbrev Bytes := List Nat

/-- Constant `maxFileSizeMB = 50` (main.go line 41). -/
def maxFileSizeMB : Nat := 50

/-- Constant `maxFileSizeByte = maxFileSizeMB * 1024 * 1024` (main.go line 42). -/
def maxFileSizeByte : Nat := maxFileSizeMB * 1024 * 1024

/-- The producer's read-buffer size: `buf := make([]byte, 32*1024)` (main.go line 218). -/
def chunkSize : Nat := 32 * 1024

/-- The path separator used by `filepath.Base` and `strings.HasSuffix(key, "/")`. -/
def isSep (c : Char) : Bool := c == '/'

/-- Predicate `startsWithChars hay pat` : does `hay` start with `pat`?  Character-level
model of Go's `strings.HasPrefix` building block. -/
def startsWithChars : List Char → List Char → Bool
  | _, [] => true
  | [], _ :: _ => false
  | c :: t, p :: ps => c == p && startsWithChars t ps

/-- Predicate `hasSubstrChars hay pat` : does `pat` occur contiguously inside `hay`?
Character-level model of Go's `strings.Contains`. -/
def hasSubstrChars : List Char → List Char → Bool
  | [], pat => startsWithChars [] pat
  | c :: t, pat => startsWithChars (c :: t) pat || hasSubstrChars t pat

/-- Model of Go `strings.Contains(s, sub)` (main.go line 250). -/
def goStringContains (s sub : String) : Bool :=
  hasSubstrChars s.data sub.data

/-- Model of Go `strings.HasSuffix(s, suf)` (main.go line 159). -/
def goHasSuffix (s suf : String) : Bool :=
  startsWithChars s.data.reverse suf.data.reverse

/-- Model of Go `filepath.Base` (Unix separator), as used at main.go
line 212: empty path gives `"."`; trailing separators are stripped; a path
of only separators gives `"/"`; otherwise the component after the last
separator is returned. -/
def goBase (path : String) : String :=
  if path = "" then "."
  else
    let stripped := (path.data.reverse.dropWhile isSep).reverse
    if stripped = [] then "/"
    else ((stripped.reverse.takeWhile (fun c => !isSep c)).reverse).asString

/-- The text matched by the handler to recognise the size-exceeded
condition: `fmt.Sprintf("exceeds the maximum allowed size of %dMB", maxFileSizeMB)`
(main.go line 250). -/
def sizeExceededPattern : String := "exceeds the maximum allowed size of 50MB"

/-- The error the producer closes the pipe with when the counter exceeds
the ceiling: `fmt.Errorf("file '%s' exceeds the maximum allowed size of %dMB", ...)`
(main.go line 224). -/
def sizeExceededMsg (filename : String) : String :=
  "file '" ++ filename ++ "' " ++ sizeExceededPattern

/-- The unique object key minted for an upload:
`fmt.Sprintf("%s_%s", uuid.New().String(), filepath.Base(fileHeader.Filename))`
(main.go line 212). -/
def mkKey (uuid filename : String) : String :=
  uuid ++ "_" ++ goBase filename

/-- Terminal state of the upload pipe, as observed by the consumer:
either the producer closed the pipe normally after writing `written`,
or it closed it with error message `msg` after writing `written`. -/
inductive PipeOutcome where
  | complete (written : Bytes)
  | aborted (written : Bytes) (msg : String)
deriving DecidableEq, Repr

/-- The producer goroutine (main.go lines 215-240): read the file in
`chunkSize` chunks, add each chunk's length to the running counter,
abort with the size-exceeded error the moment the counter strictly
exceeds `maxFileSizeByte` (the offending chunk is not written), and stop
reading.  When the content is exhausted, a clean end of input closes the
pipe normally and a read error `readErr` closes it with that error. -/
def producerRun (filename : String) (currentSize : Nat) (content : Bytes)
    (readErr : Option String) : PipeOutcome :=
  match content with
  | [] =>
    match readErr with
    | none => .complete []
    | some e => .aborted [] e
  | c :: t =>
    let chunk := (c :: t).take chunkSize
    let rest := (c :: t).drop chunkSize
    let newSize := currentSize + chunk.length
    if maxFileSizeByte < newSize then
      .aborted [] (sizeExceededMsg filename)
    else
      match producerRun filename newSize rest readErr with
      | .complete w => .complete (chunk ++ w)
      | .aborted w m => .aborted (chunk ++ w) m
termination_by content.length
decreasing_by
  simp only [List.length_drop, List.length_cons, chunkSize]
  omega

/-- An object held by the backend store: its content bytes and the
content type the backend reports on get. -/
structure StoredObj where
  content : Bytes
  contentType : String
deriving DecidableEq, Repr

/-- The backend object store (external collaborator, spec section 4.1):
an availability flag (`false` models `BackendUnavailable`, whose error
message is `errMsg`) and the stored objects in insertion order. -/
structure Backend where
  available : Bool
  errMsg : String
  objects : List (String × StoredObj)
deriving DecidableEq, Repr

/-- First object stored under `key`, if any. -/
def Backend.lookup (b : Backend) (key : String) : Option StoredObj :=
  (b.objects.find? (fun kv => kv.1 == key)).map Prod.snd

/-- Backend put (spec section 4.1): fails when the backend is
unavailable; a completed input stream stores the object; an
aborted/incomplete input stream fails the upload with the stream's error
and never results in a completed object. -/
def Backend.putObject (b : Backend) (key : String) (contentType : String)
    (body : PipeOutcome) : Except String Backend :=
  if !b.available then .error b.errMsg
  else
    match body with
    | .complete bytes =>
      .ok { b with objects := b.objects ++ [(key, ⟨bytes, contentType⟩)] }
    | .aborted _ msg => .error msg

/-- Result of a backend get (spec section 4.1): the object, a
`NoSuchKey` error, or any other backend error. -/
inductive GetObjResult where
  | ok (obj : StoredObj)
  | noSuchKey
  | backendErr (msg : String)
deriving DecidableEq, Repr

/-- Backend get (spec section 4.1): `noSuchKey` when the key is absent,
`backendErr` when the backend is unavailable. -/
def Backend.getObject (b : Backend) (key : String) : GetObjResult :=
  if !b.available then .backendErr b.errMsg
  else
    match b.lookup key with
    | some o => .ok o
    | none => .noSuchKey

/-- Backend delete (spec section 4.1): removes the key if present;
deleting an absent key succeeds (idempotent); fails only when the
backend is unavailable. -/
def Backend.deleteObject (b : Backend) (key : String) : Except String Backend :=
  if !b.available then .error b.errMsg
  else .ok { b with objects := b.objects.filter (fun kv => !(kv.1 == key)) }

/-- One file part of the multipart field `files`: the client-supplied
filename, the part's content bytes, and the error (if any) that reading
the part's stream reports after the content is exhausted (`none` models
a clean `io.EOF`). -/
structure Part where
  filename : String
  content : Bytes
  readErr : Option String
deriving DecidableEq, Repr

/-- What the upload handler produces: an HTTP status, the
`uploaded_files` key list of the 201 response (empty on error responses,
whose body is the error message instead), and the backend state after
the request. -/
structure UploadResult where
  status : Nat
  uploadedFiles : List String
  backend : Backend
deriving DecidableEq, Repr

/-- The default content type the backend records for objects stored by
`s3manager.Upload` when the caller sets none (as this service does). -/
def defaultContentType : String := "binary/octet-stream"

/-- The upload handler's per-file loop (main.go lines 199-259): parts
are processed one at a time in submission order; an empty filename is
skipped; otherwise a fresh key `<uuid>_<base filename>` is minted, the
producer streams the part into the backend put, and on a put error the
handler returns at once - 413 when the error message contains
`sizeExceededPattern` (main.go line 250), 500 otherwise - leaving
already-stored files in place.  An exhausted loop answers 201 with the
keys in upload order.  `uuids i` is the value of the i-th `uuid.New()`
call of the request. -/
def processParts (uuids : Nat → String) (i : Nat) (parts : List Part)
    (b : Backend) (acc : List String) : UploadResult :=
  match parts with
  | [] => ⟨201, acc, b⟩
  | p :: rest =>
    if p.filename = "" then
      processParts uuids i rest b acc
    else
      match b.putObject (mkKey (uuids i) p.filename) defaultContentType
          (producerRun p.filename 0 p.content p.readErr) with
      | .ok b' =>
        processParts uuids (i + 1) rest b' (acc ++ [mkKey (uuids i) p.filename])
      | .error msg =>
        if goStringContains msg sizeExceededPattern then ⟨413, [], b⟩
        else ⟨500, [], b⟩

/-- The upload handler (main.go lines 182-260).  `form` is the parsed
multipart form's `files` field: `none` models a malformed form
(`c.MultipartForm()` fails, 400); an empty part list answers 400; else
the per-file loop runs. -/
def uploadFilesHandler (uuids : Nat → String) (form : Option (List Part))
    (b : Backend) : UploadResult :=
  match form with
  | none => ⟨400, [], b⟩
  | some parts =>
    if parts.length = 0 then ⟨400, [], b⟩
    else processParts uuids 0 parts b []

/-- One entry of the list handler's 200 response (main.go lines 45-49). -/
structure FileInfo where
  filename : String
  path : String
  uploadedAt : Nat
deriving DecidableEq, Repr

/-- One object of the backend's `ListObjectsV2` answer: the key pointer
(`nil` modelled as `none`) and the last-modified timestamp. -/
structure S3Object where
  key : Option String
  lastModified : Nat
deriving DecidableEq, Repr

/-- The list handler's transformation of the backend listing (main.go
lines 157-166): objects whose key is present and does not end in `/`
become, in backend order, `{filename = key, path = "/files/" ++ key,
uploadedAt = lastModified}`; the rest are dropped. -/
def listFilesFromContents (contents : List S3Object) : List FileInfo :=
  contents.filterMap (fun obj =>
    match obj.key with
    | none => none
    | some k =>
      if goHasSuffix k "/" then none
      else some ⟨k, "/files/" ++ k, obj.lastModified⟩)

/-- The list handler (main.go lines 141-169): 500 when the backend
listing call fails, else 200 with the transformed contents. -/
def listFilesHandler (listing : Except String (List S3Object)) :
    Nat × List FileInfo :=
  match listing with
  | .error _ => (500, [])
  | .ok contents => (200, listFilesFromContents contents)

/-- What the get handler produces: status, body bytes, and the
`Content-Type`, `Content-Length` and `Content-Disposition` headers set
on the 200 path (main.go lines 296-298). -/
structure GetResult where
  status : Nat
  body : Bytes
  contentType : String
  contentLength : Nat
  contentDisposition : String
deriving DecidableEq, Repr

/-- The get handler (main.go lines 272-306): 404 on the backend's
`NoSuchKey`, 500 on other backend errors, else 200 streaming the
backend's bytes with `Content-Type` and `Content-Length` from the
backend response and `Content-Disposition: attachment; filename="<key>"`
built from the requested path parameter. -/
def getFileHandler (b : Backend) (filename : String) : GetResult :=
  match b.getObject filename with
  | .ok obj =>
    ⟨200, obj.content, obj.contentType, obj.content.length,
      "attachment; filename=\"" ++ filename ++ "\""⟩
  | .noSuchKey => ⟨404, [], "", 0, ""⟩
  | .backendErr _ => ⟨500, [], "", 0, ""⟩

/-- What the delete handler produces: status and resulting backend. -/
structure DeleteResult where
  status : Nat
  backend : Backend
deriving DecidableEq, Repr

/-- The delete handler (main.go lines 316-337): 500 when the backend
delete call fails, else 204 with no body. -/
def deleteFileHandler (b : Backend) (filename : String) : DeleteResult :=
  match b.deleteObject filename with
  | .ok b' => ⟨204, b'⟩
  | .error _ => ⟨500, b⟩

/-- The key/object pairs a list of parts adds to the backend when every
processed part succeeds: skipped (empty-filename) parts add nothing and
consume no uuid; the others are stored in submission order. -/
def uploadedObjs (uuids : Nat → String) (i : Nat) : List Part → List (String × StoredObj)
  | [] => []
  | p :: rest =>
    if p.filename = "" then uploadedObjs uuids i rest
    else (mkKey (uuids i) p.filename, ⟨p.content, defaultContentType⟩) ::
      uploadedObjs uuids (i + 1) rest

/-- Number of parts of a list that are not skipped (nonempty filename):
how many uuids the loop consumes. -/
def goodCount : List Part → Nat
  | [] => 0
  | p :: rest => (if p.filename = "" then 0 else 1) + goodCount rest

theorem startsWithChars_append_self (p r : List Char) :
    startsWithChars (p ++ r) p = true := by
  induction p with
  | nil => simp [startsWithChars]
  | cons c t ih => simp [startsWithChars, ih]

theorem startsWithChars_self (l : List Char) : startsWithChars l l = true := by
  simpa using startsWithChars_append_self l []

theorem hasSubstrChars_refl (pat : List Char) : hasSubstrChars pat pat = true := by
  cases pat with
  | nil => simp [hasSubstrChars, startsWithChars]
  | cons c t => simp [hasSubstrChars, startsWithChars_self]

theorem hasSubstrChars_append_left (a s pat : List Char)
    (h : hasSubstrChars s pat = true) : hasSubstrChars (a ++ s) pat = true := by
  induction a with
  | nil => simpa
  | cons c t ih => simp [hasSubstrChars, ih]

/-- The producer's abort message always contains the text the handler
matches on, whatever the filename. -/
theorem contains_sizeExceededMsg (f : String) :
    goStringContains (sizeExceededMsg f) sizeExceededPattern = true := by
  unfold goStringContains sizeExceededMsg
  rw [String.data_append]
  exact hasSubstrChars_append_left _ _ _ (hasSubstrChars_refl _)

theorem chunkSize_pos : 0 < chunkSize := by decide

/-- A stream whose total size (counter included) stays within the
ceiling is passed through the pipe unchanged: a clean end of input
closes the pipe normally with exactly the content written, and a read
error closes it with that error after the whole content was written. -/
theorem producerRun_small (f : String) (re : Option String) :
    ∀ (n : Nat) (content : Bytes) (cs : Nat), content.length ≤ n →
      cs + content.length ≤ maxFileSizeByte →
      producerRun f cs content re =
        match re with
        | none => .complete content
        | some e => .aborted content e := by
  intro n
  induction n with
  | zero =>
    intro content cs hlen _
    have hc : content = [] := List.eq_nil_of_length_eq_zero (Nat.le_zero.mp hlen)
    subst hc
    rw [producerRun.eq_def]
  | succ n ih =>
    intro content cs hlen hsize
    match content with
    | [] => rw [producerRun.eq_def]
    | c :: t =>
      rw [producerRun]
      have hsplit := congrArg List.length (List.take_append_drop chunkSize (c :: t))
      rw [List.length_append] at hsplit
      simp only [List.length_cons] at hsplit hsize hlen
      have hnotbig : ¬ maxFileSizeByte < cs + ((c :: t).take chunkSize).length := by
        omega
      rw [if_neg hnotbig]
      have hlen' : ((c :: t).drop chunkSize).length ≤ n := by
        rw [List.length_drop]
        have := chunkSize_pos
        simp only [List.length_cons]
        omega
      have hsize' : cs + ((c :: t).take chunkSize).length +
          ((c :: t).drop chunkSize).length ≤ maxFileSizeByte := by omega
      rw [ih _ _ hlen' hsize']
      cases re <;> simp [List.take_append_drop]

/-- A stream whose total size exceeds the ceiling makes the producer
abort with the size-exceeded error: the written bytes are a prefix of
the content, the counter never passes the ceiling (so at most
`maxFileSizeByte` bytes enter the pipe), and the read error, if any, is
never reached. -/
theorem producerRun_aborts (f : String) (re : Option String) :
    ∀ (n : Nat) (content : Bytes) (cs : Nat), content.length ≤ n →
      cs ≤ maxFileSizeByte →
      maxFileSizeByte < cs + content.length →
      ∃ w k, producerRun f cs content re = .aborted w (sizeExceededMsg f) ∧
        cs + w.length ≤ maxFileSizeByte ∧ w = content.take k := by
  intro n
  induction n with
  | zero =>
    intro content cs hlen hcs hbig
    have hc : content = [] := List.eq_nil_of_length_eq_zero (Nat.le_zero.mp hlen)
    subst hc
    simp at hbig
    omega
  | succ n ih =>
    intro content cs hlen hcs hbig
    match content with
    | [] => simp at hbig; omega
    | c :: t =>
      rw [producerRun]
      by_cases hchunk : maxFileSizeByte < cs + ((c :: t).take chunkSize).length
      · rw [if_pos hchunk]
        exact ⟨[], 0, rfl, by simpa using hcs, by simp⟩
      · rw [if_neg hchunk]
        have hsplit := congrArg List.length (List.take_append_drop chunkSize (c :: t))
        rw [List.length_append] at hsplit
        simp only [List.length_cons] at hsplit hlen hbig
        have hlen' : ((c :: t).drop chunkSize).length ≤ n := by
          rw [List.length_drop]
          have := chunkSize_pos
          simp only [List.length_cons]
          omega
        obtain ⟨w', k', heq, hle, htake⟩ :=
          ih ((c :: t).drop chunkSize) (cs + ((c :: t).take chunkSize).length)
            hlen' (by omega) (by omega)
        rw [heq]
        refine ⟨(c :: t).take chunkSize ++ w', chunkSize + k', rfl, ?_, ?_⟩
        · rw [List.length_append]; omega
        · rw [List.take_add, htake]

/-- Instance of `producerRun_small`: clean end of input within the
ceiling streams the content unchanged. -/
theorem producerRun_complete (f : String) (content : Bytes) (cs : Nat)
    (hsize : cs + content.length ≤ maxFileSizeByte) :
    producerRun f cs content none = .complete content := by
  simpa using producerRun_small f none content.length content cs le_rfl hsize

/-- Instance of `producerRun_small`: a read error on a stream within the
ceiling aborts the pipe with exactly that error after the content was
written. -/
theorem producerRun_readErr (f e : String) (content : Bytes) (cs : Nat)
    (hsize : cs + content.length ≤ maxFileSizeByte) :
    producerRun f cs content (some e) = .aborted content e := by
  simpa using producerRun_small f (some e) content.length content cs le_rfl hsize

theorem find?_append_of_none {α : Type} (p : α → Bool) (l1 l2 : List α)
    (h : l1.find? p = none) : (l1 ++ l2).find? p = l2.find? p := by
  induction l1 with
  | nil => simp
  | cons a t ih =>
    cases hp : p a with
    | true => simp [List.find?_cons, hp] at h
    | false =>
      simp only [List.find?_cons, hp, cond_false] at h
      simp only [List.cons_append, List.find?_cons, hp, cond_false]
      exact ih h

theorem find?_key_filter_ne (key : String) (l : List (String × StoredObj)) :
    (l.filter (fun kv => !(kv.1 == key))).find? (fun kv => kv.1 == key) = none := by
  induction l with
  | nil => simp
  | cons kv t ih =>
    cases h : kv.1 == key with
    | true => simp [List.filter_cons, h, ih]
    | false => simp [List.filter_cons, List.find?_cons, h, ih]

/-- The per-file loop over a list of parts that all succeed (within the
ceiling, no read error, backend available) continues with the remaining
parts: the successful parts' objects are appended to the backend in
submission order, their keys extend the accumulator in order, and one
uuid is consumed per non-skipped part. -/
theorem processParts_ok (uuids : Nat → String) :
    ∀ (ps1 rest : List Part) (i : Nat) (b : Backend) (acc : List String),
      b.available = true →
      (∀ p ∈ ps1, p.filename ≠ "" →
        p.readErr = none ∧ p.content.length ≤ maxFileSizeByte) →
      processParts uuids i (ps1 ++ rest) b acc =
        processParts uuids (i + goodCount ps1) rest
          { b with objects := b.objects ++ uploadedObjs uuids i ps1 }
          (acc ++ (uploadedObjs uuids i ps1).map Prod.fst) := by
  intro ps1
  induction ps1 with
  | nil => intro rest i b acc _ _; simp [uploadedObjs, goodCount]
  | cons p t ih =>
    intro rest i b acc hav hgood
    by_cases hf : p.filename = ""
    · rw [List.cons_append, processParts, if_pos hf]
      rw [ih rest i b acc hav (fun q hq => hgood q (List.mem_cons_of_mem p hq))]
      simp [uploadedObjs, goodCount, hf]
    · obtain ⟨hre, hsize⟩ := hgood p (List.mem_cons_self p t) hf
      rw [List.cons_append, processParts, if_neg hf]
      rw [hre, producerRun_complete p.filename p.content 0 (by simpa using hsize)]
      have hput : b.putObject (mkKey (uuids i) p.filename) defaultContentType
          (PipeOutcome.complete p.content) =
          .ok { b with objects := b.objects ++
            [(mkKey (uuids i) p.filename, ⟨p.content, defaultContentType⟩)] } := by
        simp [Backend.putObject, hav]
      simp only [hput]
      rw [ih rest (i + 1)
        { b with objects := b.objects ++ [(mkKey (uuids i) p.filename,
            ⟨p.content, defaultContentType⟩)] }
        (acc ++ [mkKey (uuids i) p.filename]) hav
        (fun q hq => hgood q (List.mem_cons_of_mem p hq))]
      simp only [uploadedObjs, goodCount, hf, if_neg hf, List.map_cons]
      rw [List.append_assoc, List.append_assoc]
      have : i + 1 + goodCount t = i + (1 + goodCount t) := by omega
      rw [this]
      simp

/-- The per-file loop never answers 400: a bad request is only detected
before the loop starts. -/
theorem processParts_status_ne_400 (uuids : Nat → String) :
    ∀ (parts : List Part) (i : Nat) (b : Backend) (acc : List String),
      (processParts uuids i parts b acc).status ≠ 400 := by
  intro parts
  induction parts with
  | nil => intro i b acc; simp [processParts]
  | cons p t ih =>
    intro i b acc
    rw [processParts]
    by_cases hf : p.filename = ""
    · rw [if_pos hf]; exact ih i b acc
    · rw [if_neg hf]
      cases hput : b.putObject (mkKey (uuids i) p.filename) defaultContentType
          (producerRun p.filename 0 p.content p.readErr) with
      | ok b' => exact ih (i + 1) b' (acc ++ [mkKey (uuids i) p.filename])
      | error msg =>
        by_cases hc : goStringContains msg sizeExceededPattern <;> simp [hc]

/-- A loop over parts that are all skipped (empty filenames) stores
nothing and answers 201 with the accumulator unchanged. -/
theorem processParts_all_skipped (uuids : Nat → String) :
    ∀ (parts : List Part) (i : Nat) (b : Backend) (acc : List String),
      (∀ p ∈ parts, p.filename = "") →
      processParts uuids i parts b acc = ⟨201, acc, b⟩ := by
  intro parts
  induction parts with
  | nil => intro i b acc _; rfl
  | cons p t ih =>
    intro i b acc hall
    rw [processParts, if_pos (hall p (List.mem_cons_self p t))]
    exact ih i b acc (fun q hq => hall q (List.mem_cons_of_mem p hq))

theorem data_asString (l : List Char) : l.asString.data = l := rfl

/-- A nonempty string all of whose characters differ from `/` does not
end in `/`. -/
theorem goHasSuffix_slash_eq_false (s : String) (hne : s.data ≠ [])
    (h : ∀ c ∈ s.data, c ≠ '/') : goHasSuffix s "/" = false := by
  unfold goHasSuffix
  cases hrev : s.data.reverse with
  | nil => exact absurd (by simpa using hrev) hne
  | cons c t =>
    have hc : c ∈ s.data := by
      have : c ∈ s.data.reverse := by rw [hrev]; exact List.mem_cons_self c t
      simpa using this
    have hcne : (c == '/') = false := beq_eq_false_iff_ne.mpr (h c hc)
    simp [startsWithChars, hcne]

/-- When the supplied filename has at least one non-separator character,
`goBase` keeps no separator: every character of the base differs
from `/`, and the base is nonempty. -/
theorem goBase_no_separator (f : String) (hf : ∃ c ∈ f.data, c ≠ '/') :
    (goBase f).data ≠ [] ∧ ∀ c ∈ (goBase f).data, c ≠ '/' := by
  obtain ⟨c0, hc0mem, hc0⟩ := hf
  have hfne : ¬ f = "" := by
    intro h; subst h; simp at hc0mem
  unfold goBase
  rw [if_neg hfne]
  have hdrop : f.data.reverse.dropWhile isSep ≠ [] := by
    rw [Ne, List.dropWhile_eq_nil_iff]
    intro hall
    exact hc0 (by simpa [isSep] using hall c0 (by simpa using hc0mem))
  have hstripne : (f.data.reverse.dropWhile isSep).reverse ≠ [] := by
    simpa using hdrop
  rw [if_neg hstripne]
  constructor
  · have hhead : ∃ d t, f.data.reverse.dropWhile isSep = d :: t := by
      cases hd : f.data.reverse.dropWhile isSep with
      | nil => exact absurd hd hdrop
      | cons d t => exact ⟨d, t, rfl⟩
    obtain ⟨d, t, hd⟩ := hhead
    have hdns : isSep d = false := by
      have := List.head_dropWhile_not isSep f.data.reverse (by simp [hd])
      simpa [hd] using this
    simp [List.reverse_reverse, hd, data_asString, List.takeWhile, hdns]
  · intro c hc
    have : c ∈ ((f.data.reverse.dropWhile isSep).takeWhile
        (fun c => !isSep c)) := by
      have := hc
      rw [data_asString] at this
      rw [List.reverse_reverse] at this
      simpa using this
    have := List.mem_takeWhile_imp this
    simpa [isSep] using this

/-- The list transformation on objects that all carry a key: keep, in
order, exactly the keys without trailing separator. -/
theorem listFilesFromContents_map (contents : List (String × Nat)) :
    listFilesFromContents (contents.map (fun kv => ⟨some kv.1, kv.2⟩)) =
      (contents.filter (fun kv => !goHasSuffix kv.1 "/")).map
        (fun kv => ⟨kv.1, "/files/" ++ kv.1, kv.2⟩) := by
  induction contents with
  | nil => rfl
  | cons kv t ih =>
    simp only [List.map_cons, listFilesFromContents, List.filterMap_cons,
      List.filter_cons]
    cases hk : goHasSuffix kv.1 "/" with
    | true => simpa [hk, listFilesFromContents] using ih
    | false => simpa [hk, listFilesFromContents] using ih

/-- C6: on backend success the list handler returns 200 with, in the
backend's order, exactly one entry for each object whose key does not
end in the path separator, with filename equal to the key, path equal to
"/files/" followed by the key, and uploadedAt the backend timestamp;
keys with a trailing separator are excluded; on any backend listing
error it returns 500. -/
theorem listFilesHandler_spec :
    (∀ contents : List (String × Nat),
      listFilesHandler (.ok (contents.map (fun kv => ⟨some kv.1, kv.2⟩))) =
        (200, (contents.filter (fun kv => !goHasSuffix kv.1 "/")).map
          (fun kv => ⟨kv.1, "/files/" ++ kv.1, kv.2⟩))) ∧
    (∀ msg : String, listFilesHandler (.error msg) = (500, [])) := by
  constructor
  · intro contents
    simp only [listFilesHandler]
    rw [listFilesFromContents_map]
  · intro msg
    rfl

/-- C7: the get handler returns 500 when the backend is unavailable, 404
when the backend reports the key absent, and otherwise 200 with the
backend object's bytes, its Content-Type and Content-Length from the
backend response, and a Content-Disposition built from the requested
key (the generated storage key, not the original upload filename). -/
theorem getFileHandler_spec (b : Backend) (filename : String) :
    (b.available = false → getFileHandler b filename = ⟨500, [], "", 0, ""⟩) ∧
    (b.available = true → b.lookup filename = none →
      getFileHandler b filename = ⟨404, [], "", 0, ""⟩) ∧
    (∀ obj : StoredObj, b.available = true → b.lookup filename = some obj →
      getFileHandler b filename =
        ⟨200, obj.content, obj.contentType, obj.content.length,
          "attachment; filename=\"" ++ filename ++ "\""⟩) := by
  refine ⟨?_, ?_, ?_⟩
  · intro hav
    simp [getFileHandler, Backend.getObject, hav]
  · intro hav hlk
    simp [getFileHandler, Backend.getObject, hav, hlk]
  · intro obj hav hlk
    simp [getFileHandler, Backend.getObject, hav, hlk]

/-- Witness for `getFileHandler_spec` at concrete backends. -/
theorem getFileHandler_spec_witness :
    getFileHandler ⟨false, "down", []⟩ "k" = ⟨500, [], "", 0, ""⟩ ∧
    getFileHandler ⟨true, "", []⟩ "k" = ⟨404, [], "", 0, ""⟩ ∧
    getFileHandler ⟨true, "", [("k", ⟨[7, 8], "text/plain"⟩)]⟩ "k" =
      ⟨200, [7, 8], "text/plain", 2, "attachment; filename=\"k\""⟩ :=
  ⟨(getFileHandler_spec ⟨false, "down", []⟩ "k").1 rfl,
   (getFileHandler_spec ⟨true, "", []⟩ "k").2.1 rfl rfl,
   (getFileHandler_spec ⟨true, "", [("k", ⟨[7, 8], "text/plain"⟩)]⟩ "k").2.2
     ⟨[7, 8], "text/plain"⟩ rfl (by decide)⟩

/-- C8: the delete handler returns 204 whenever the backend delete call
succeeds - for every backend state with the backend available, the key
present or not (idempotent) - removing the key's objects; it returns 500
with the backend unchanged when the backend call fails; and getting the
same key right after a successful delete yields 404. -/
theorem deleteFileHandler_spec (b : Backend) (key : String) :
    (b.available = true →
      deleteFileHandler b key =
        ⟨204, { b with objects := b.objects.filter (fun kv => !(kv.1 == key)) }⟩ ∧
      getFileHandler (deleteFileHandler b key).backend key = ⟨404, [], "", 0, ""⟩) ∧
    (b.available = false → deleteFileHandler b key = ⟨500, b⟩) := by
  constructor
  · intro hav
    have hdel : deleteFileHandler b key =
        ⟨204, { b with objects := b.objects.filter (fun kv => !(kv.1 == key)) }⟩ := by
      simp [deleteFileHandler, Backend.deleteObject, hav]
    refine ⟨hdel, ?_⟩
    rw [hdel]
    have hfind : (b.objects.filter (fun kv => !(kv.1 == key))).find?
        (fun kv => kv.1 == key) = none := find?_key_filter_ne key b.objects
    simp [getFileHandler, Backend.getObject, Backend.lookup, hav, hfind]
  · intro hav
    simp [deleteFileHandler, Backend.deleteObject, hav]

/-- Witness for `deleteFileHandler_spec`: deleting a present key and an
absent key both answer 204, the following get answers 404, and an
unavailable backend answers 500. -/
theorem deleteFileHandler_spec_witness :
    deleteFileHandler ⟨true, "", [("k", ⟨[1], "text/plain"⟩)]⟩ "k" =
      ⟨204, ⟨true, "", []⟩⟩ ∧
    deleteFileHandler ⟨true, "", []⟩ "k" = ⟨204, ⟨true, "", []⟩⟩ ∧
    getFileHandler (deleteFileHandler ⟨true, "", [("k", ⟨[1], "text/plain"⟩)]⟩ "k").backend
      "k" = ⟨404, [], "", 0, ""⟩ ∧
    deleteFileHandler ⟨false, "down", []⟩ "k" = ⟨500, ⟨false, "down", []⟩⟩ :=
  ⟨by
    have := (deleteFileHandler_spec ⟨true, "", [("k", ⟨[1], "text/plain"⟩)]⟩ "k").1 rfl
    rw [this.1]
    simp,
   (deleteFileHandler_spec ⟨true, "", []⟩ "k").1 rfl |>.1,
   (deleteFileHandler_spec ⟨true, "", [("k", ⟨[1], "text/plain"⟩)]⟩ "k").1 rfl |>.2,
   (deleteFileHandler_spec ⟨false, "down", []⟩ "k").2 rfl⟩

/-- C9: the upload handler answers 400 exactly when the multipart form
is malformed or the `files` field has zero parts; parts with an empty
filename are skipped, so a request whose parts are all empty-named is
not a 400 but a 201 with an empty key list; and a request with at least
one part is never answered 400. -/
theorem uploadFilesHandler_badRequest_spec (uuids : Nat → String) (b : Backend) :
    uploadFilesHandler uuids none b = ⟨400, [], b⟩ ∧
    uploadFilesHandler uuids (some []) b = ⟨400, [], b⟩ ∧
    (∀ parts : List Part, parts ≠ [] → (∀ p ∈ parts, p.filename = "") →
      uploadFilesHandler uuids (some parts) b = ⟨201, [], b⟩) ∧
    (∀ parts : List Part, parts ≠ [] →
      (uploadFilesHandler uuids (some parts) b).status ≠ 400) := by
  refine ⟨rfl, rfl, ?_, ?_⟩
  · intro parts hne hall
    rw [uploadFilesHandler, if_neg (by simpa using hne)]
    exact processParts_all_skipped uuids parts 0 b [] hall
  · intro parts hne
    rw [uploadFilesHandler, if_neg (by simpa using hne)]
    exact processParts_status_ne_400 uuids parts 0 b []

/-- Witness for `uploadFilesHandler_badRequest_spec`: a request whose
two parts are both empty-named completes with 201 and no keys, and is
in particular not a 400. -/
theorem uploadFilesHandler_badRequest_witness :
    uploadFilesHandler (fun _ => "u") (some [⟨"", [1], none⟩, ⟨"", [2], none⟩])
        ⟨true, "", []⟩ = ⟨201, [], ⟨true, "", []⟩⟩ ∧
    (uploadFilesHandler (fun _ => "u") (some [⟨"", [1], none⟩, ⟨"", [2], none⟩])
        ⟨true, "", []⟩).status ≠ 400 :=
  ⟨(uploadFilesHandler_badRequest_spec (fun _ => "u") ⟨true, "", []⟩).2.2.1
      [⟨"", [1], none⟩, ⟨"", [2], none⟩] (by decide) (by decide),
   (uploadFilesHandler_badRequest_spec (fun _ => "u") ⟨true, "", []⟩).2.2.2
      [⟨"", [1], none⟩, ⟨"", [2], none⟩] (by decide)⟩

/-- C5: a minted key is the random identifier, an underscore, and the
base of the client-supplied filename; two keys minted from distinct
random identifiers of equal length (uuid strings all have 36
characters) are distinct, whatever the filenames - in particular for two
uploads of files with identical filenames. -/
theorem mkKey_unique (u1 u2 f1 f2 : String) (hlen : u1.length = u2.length)
    (hne : u1 ≠ u2) : mkKey u1 f1 ≠ mkKey u2 f2 := by
  intro h
  apply hne
  unfold mkKey at h
  have hd := congrArg String.data h
  rw [String.data_append, String.data_append, String.data_append,
    String.data_append] at hd
  rw [List.append_assoc, List.append_assoc] at hd
  have : u1.data = u2.data := List.append_inj_left hd hlen
  exact String.ext this

/-- Witness for `mkKey_unique`: two concrete 36-character identifiers
with the same filename give distinct keys. -/
theorem mkKey_unique_witness :
    mkKey "123e4567-e89b-12d3-a456-426614174000" "a.txt" ≠
      mkKey "123e4567-e89b-12d3-a456-426614174001" "a.txt" :=
  mkKey_unique "123e4567-e89b-12d3-a456-426614174000"
    "123e4567-e89b-12d3-a456-426614174001" "a.txt" "a.txt" (by decide) (by decide)

/-- C10 counterexample: for the client-supplied filename "/" (made of
path separators only) `filepath.Base` returns "/", so the upload mints
the key "u_/", which ends with the path separator and is therefore
excluded from the list handler's output by the directory-marker
filter - the claim that an uploaded key never contains or ends with "/"
is false. -/
theorem uploadKey_separator_counterexample :
    (uploadFilesHandler (fun _ => "u") (some [⟨"/", [], none⟩])
        ⟨true, "", []⟩).uploadedFiles = ["u_/"] ∧
    goHasSuffix "u_/" "/" = true ∧
    listFilesFromContents [⟨some "u_/", 0⟩] = [] := by
  refine ⟨?_, by decide, by decide⟩
  have hprod : producerRun "/" 0 [] none = .complete [] := by
    rw [producerRun.eq_def]
  simp only [uploadFilesHandler, List.length_cons, List.length_nil]
  rw [if_neg (by decide)]
  simp only [processParts, hprod, Backend.putObject]
  norm_num
  decide

/-- C10 amended: only the base component of the client-supplied filename
is embedded in the key, so when the random identifier has no separator
and the filename has at least one non-separator character, the minted
key contains no "/", does not end with "/", and is therefore never
excluded from the list handler's output by the directory-marker filter;
a filename consisting entirely of separators is the exception, its base
being "/" itself. -/
theorem mkKey_no_separator (u f : String)
    (hu : ∀ c ∈ u.data, c ≠ '/') (hf : ∃ c ∈ f.data, c ≠ '/') :
    (∀ c ∈ (mkKey u f).data, c ≠ '/') ∧
    goHasSuffix (mkKey u f) "/" = false ∧
    (∀ t : Nat, listFilesFromContents [⟨some (mkKey u f), t⟩] =
      [⟨mkKey u f, "/files/" ++ mkKey u f, t⟩]) := by
  obtain ⟨hbne, hbase⟩ := goBase_no_separator f hf
  have hdata : (mkKey u f).data = u.data ++ '_' :: (goBase f).data := by
    unfold mkKey
    rw [String.data_append, String.data_append, List.append_assoc]
    rfl
  have hall : ∀ c ∈ (mkKey u f).data, c ≠ '/' := by
    intro c hc
    rw [hdata] at hc
    rcases List.mem_append.mp hc with h | h
    · exact hu c h
    · rcases List.mem_cons.mp h with h | h
      · subst h; decide
      · exact hbase c h
  have hne : (mkKey u f).data ≠ [] := by
    rw [hdata]
    intro h
    simp at h
  have hsuf : goHasSuffix (mkKey u f) "/" = false :=
    goHasSuffix_slash_eq_false (mkKey u f) hne hall
  refine ⟨hall, hsuf, ?_⟩
  intro t
  simp [listFilesFromContents, hsuf]

/-- Witness for `mkKey_no_separator`: a uuid-shaped identifier and the
filename "a.txt" give a key without separators that the list keeps. -/
theorem mkKey_no_separator_witness :
    goHasSuffix (mkKey "123e4567-e89b-12d3-a456-426614174000" "a.txt") "/" = false ∧
    listFilesFromContents
        [⟨some (mkKey "123e4567-e89b-12d3-a456-426614174000" "a.txt"), 5⟩] =
      [⟨mkKey "123e4567-e89b-12d3-a456-426614174000" "a.txt",
        "/files/" ++ mkKey "123e4567-e89b-12d3-a456-426614174000" "a.txt", 5⟩] :=
  ⟨(mkKey_no_separator "123e4567-e89b-12d3-a456-426614174000" "a.txt"
      (by decide) (by decide)).2.1,
   (mkKey_no_separator "123e4567-e89b-12d3-a456-426614174000" "a.txt"
      (by decide) (by decide)).2.2 5⟩

theorem putObject_aborted (b : Backend) (key ct : String) (w : Bytes) (m : String)
    (hav : b.available = true) :
    b.putObject key ct (.aborted w m) = .error m := by
  simp [Backend.putObject, hav]

theorem putObject_unavailable (b : Backend) (key ct : String) (body : PipeOutcome)
    (hav : b.available = false) :
    b.putObject key ct body = .error b.errMsg := by
  simp [Backend.putObject, hav]

/-- A single-part upload whose put call fails is answered 413 or 500
according to whether the error message contains the matched text. -/
theorem uploadFilesHandler_single_error (uuids : Nat → String) (p : Part)
    (b : Backend) (msg : String) (hf : p.filename ≠ "")
    (hput : b.putObject (mkKey (uuids 0) p.filename) defaultContentType
      (producerRun p.filename 0 p.content p.readErr) = .error msg) :
    uploadFilesHandler uuids (some [p]) b =
      if goStringContains msg sizeExceededPattern then ⟨413, [], b⟩
      else ⟨500, [], b⟩ := by
  rw [uploadFilesHandler, if_neg (by simp)]
  rw [processParts, if_neg hf]
  simp only [hput]

/-- A loop over parts that all succeed answers 201 with the minted keys
in order and the backend extended by the stored objects in order. -/
theorem processParts_terminal (uuids : Nat → String) (ps : List Part) (b : Backend)
    (hav : b.available = true)
    (hgood : ∀ p ∈ ps, p.filename ≠ "" →
      p.readErr = none ∧ p.content.length ≤ maxFileSizeByte) :
    processParts uuids 0 ps b [] =
      ⟨201, (uploadedObjs uuids 0 ps).map Prod.fst,
        { b with objects := b.objects ++ uploadedObjs uuids 0 ps }⟩ := by
  have h := processParts_ok uuids ps [] 0 b [] hav hgood
  rw [List.append_nil] at h
  rw [h, processParts]
  simp

/-- C1: a file part with a nonempty filename and content within the
50 MiB ceiling (equality included: the producer aborts only when the
counter strictly exceeds the ceiling) is streamed through the pipe
unchanged, the upload succeeds with 201 and the minted key, and a
subsequent get of that key answers 200 with byte-identical content
(backend available, clean read, and the minted key fresh). -/
theorem upload_get_roundtrip (uuids : Nat → String) (p : Part) (b : Backend)
    (hav : b.available = true) (hf : p.filename ≠ "") (hre : p.readErr = none)
    (hsize : p.content.length ≤ maxFileSizeByte)
    (hfresh : b.lookup (mkKey (uuids 0) p.filename) = none) :
    producerRun p.filename 0 p.content p.readErr = .complete p.content ∧
    uploadFilesHandler uuids (some [p]) b =
      ⟨201, [mkKey (uuids 0) p.filename],
        { b with objects := b.objects ++
          [(mkKey (uuids 0) p.filename, ⟨p.content, defaultContentType⟩)] }⟩ ∧
    getFileHandler (uploadFilesHandler uuids (some [p]) b).backend
        (mkKey (uuids 0) p.filename) =
      ⟨200, p.content, defaultContentType, p.content.length,
        "attachment; filename=\"" ++ mkKey (uuids 0) p.filename ++ "\""⟩ := by
  have hprod : producerRun p.filename 0 p.content p.readErr = .complete p.content := by
    rw [hre]
    exact producerRun_complete p.filename p.content 0 (by simpa using hsize)
  have hgood : ∀ q ∈ [p], q.filename ≠ "" →
      q.readErr = none ∧ q.content.length ≤ maxFileSizeByte := by
    intro q hq _
    rw [List.mem_singleton.mp hq]
    exact ⟨hre, hsize⟩
  have hhandler : uploadFilesHandler uuids (some [p]) b =
      ⟨201, [mkKey (uuids 0) p.filename],
        { b with objects := b.objects ++
          [(mkKey (uuids 0) p.filename, ⟨p.content, defaultContentType⟩)] }⟩ := by
    rw [uploadFilesHandler, if_neg (by simp)]
    rw [processParts_terminal uuids [p] b hav hgood]
    simp [uploadedObjs, hf]
  refine ⟨hprod, hhandler, ?_⟩
  rw [hhandler]
  have hfind0 : b.objects.find? (fun kv => kv.1 == mkKey (uuids 0) p.filename)
      = none := by
    unfold Backend.lookup at hfresh
    cases hfo : b.objects.find? (fun kv => kv.1 == mkKey (uuids 0) p.filename) with
    | none => rfl
    | some kv => rw [hfo] at hfresh; simp at hfresh
  simp [getFileHandler, Backend.getObject, Backend.lookup, hav, hfind0]

/-- Witness for `upload_get_roundtrip` at a file of exactly 50 MiB: the
upload succeeds and the following get returns the identical bytes. -/
theorem upload_get_roundtrip_witness :
    (List.replicate maxFileSizeByte 0).length ≤ maxFileSizeByte ∧
    getFileHandler (uploadFilesHandler (fun _ => "u")
        (some [⟨"big.bin", List.replicate maxFileSizeByte 0, none⟩])
        ⟨true, "", []⟩).backend (mkKey "u" "big.bin") =
      ⟨200, List.replicate maxFileSizeByte 0, defaultContentType,
        (List.replicate maxFileSizeByte 0).length,
        "attachment; filename=\"" ++ mkKey "u" "big.bin" ++ "\""⟩ :=
  ⟨by simp,
   (upload_get_roundtrip (fun _ => "u")
      ⟨"big.bin", List.replicate maxFileSizeByte 0, none⟩ ⟨true, "", []⟩
      rfl (by decide) rfl (by simp) rfl).2.2⟩

/-- A single-part upload of a file over the ceiling is answered 413 with
the backend unchanged. -/
theorem uploadFilesHandler_single_oversize (uuids : Nat → String) (p : Part)
    (b : Backend) (hav : b.available = true) (hf : p.filename ≠ "")
    (hsize : maxFileSizeByte < p.content.length) :
    uploadFilesHandler uuids (some [p]) b = ⟨413, [], b⟩ := by
  obtain ⟨w, k, hprod, _, _⟩ :=
    producerRun_aborts p.filename p.readErr p.content.length p.content 0
      le_rfl (Nat.zero_le _) (by simpa using hsize)
  rw [uploadFilesHandler_single_error uuids p b (sizeExceededMsg p.filename) hf
    (by rw [hprod]; exact putObject_aborted b _ _ w _ hav)]
  rw [if_pos (by rw [contains_sizeExceededMsg])]

/-- C2: a file part whose content exceeds the 50 MiB ceiling makes the
producer abort the pipe with the size-exceeded error at the chunk that
crosses the ceiling, without writing the offending chunk and without
reading further: the written bytes are a prefix of the content of at
most 50 MiB.  The put call fails, no object is created or retained (the
backend is returned unchanged), the request is answered 413, and the
minted key appears in no returned key list. -/
theorem upload_size_exceeded_spec (uuids : Nat → String) (p : Part) (b : Backend)
    (hav : b.available = true) (hf : p.filename ≠ "")
    (hsize : maxFileSizeByte < p.content.length) :
    ∃ w k, producerRun p.filename 0 p.content p.readErr =
        .aborted w (sizeExceededMsg p.filename) ∧
      w.length ≤ maxFileSizeByte ∧ w = p.content.take k ∧
      uploadFilesHandler uuids (some [p]) b = ⟨413, [], b⟩ := by
  obtain ⟨w, k, hprod, hwle, hwtake⟩ :=
    producerRun_aborts p.filename p.readErr p.content.length p.content 0
      le_rfl (Nat.zero_le _) (by simpa using hsize)
  exact ⟨w, k, hprod, by simpa using hwle, hwtake,
    uploadFilesHandler_single_oversize uuids p b hav hf hsize⟩

/-- Witness for `upload_size_exceeded_spec` at a file of exactly one
byte over the ceiling: the request is answered 413 and the backend keeps
no object. -/
theorem upload_size_exceeded_witness :
    maxFileSizeByte < (List.replicate (maxFileSizeByte + 1) 0).length ∧
    ∃ w k, producerRun "big.bin" 0 (List.replicate (maxFileSizeByte + 1) 0) none =
        .aborted w (sizeExceededMsg "big.bin") ∧
      w.length ≤ maxFileSizeByte ∧
      w = (List.replicate (maxFileSizeByte + 1) 0).take k ∧
      uploadFilesHandler (fun _ => "u")
        (some [⟨"big.bin", List.replicate (maxFileSizeByte + 1) 0, none⟩])
        ⟨true, "", []⟩ = ⟨413, [], ⟨true, "", []⟩⟩ :=
  ⟨by simp,
   upload_size_exceeded_spec (fun _ => "u")
     ⟨"big.bin", List.replicate (maxFileSizeByte + 1) 0, none⟩ ⟨true, "", []⟩
     rfl (by decide) (by simp)⟩

/-- C4: within one upload request the parts are processed one at a time
in submission order, and failure is not transactional: when the parts
before the offending file all succeed and that file exceeds the ceiling,
the whole request is answered 413, the files uploaded before it remain
persisted in the backend in submission order (not rolled back), and the
parts after it are never processed - the result is the same whatever
they are. -/
theorem upload_batch_failure_keeps_earlier (uuids : Nat → String)
    (ps1 : List Part) (p : Part) (ps2 : List Part) (b : Backend)
    (hav : b.available = true)
    (hgood : ∀ q ∈ ps1, q.filename ≠ "" →
      q.readErr = none ∧ q.content.length ≤ maxFileSizeByte)
    (hf : p.filename ≠ "") (hsize : maxFileSizeByte < p.content.length) :
    uploadFilesHandler uuids (some (ps1 ++ p :: ps2)) b =
      ⟨413, [], { b with objects := b.objects ++ uploadedObjs uuids 0 ps1 }⟩ := by
  rw [uploadFilesHandler, if_neg (by simp)]
  rw [processParts_ok uuids ps1 (p :: ps2) 0 b [] hav hgood]
  rw [processParts, if_neg hf]
  obtain ⟨w, k, hprod, _, _⟩ :=
    producerRun_aborts p.filename p.readErr p.content.length p.content 0
      le_rfl (Nat.zero_le _) (by simpa using hsize)
  rw [hprod]
  simp only [putObject_aborted
    { b with objects := b.objects ++ uploadedObjs uuids 0 ps1 }
    (mkKey (uuids (0 + goodCount ps1)) p.filename) defaultContentType w
    (sizeExceededMsg p.filename) hav]
  rw [if_pos (contains_sizeExceededMsg p.filename)]

/-- Witness for `upload_batch_failure_keeps_earlier`: in a three-file request
whose second file is one byte over the ceiling, the request is answered
413, the first file stays persisted, and the third is never stored. -/
theorem upload_batch_failure_keeps_earlier_witness :
    maxFileSizeByte < (List.replicate (maxFileSizeByte + 1) 0).length ∧
    uploadFilesHandler (fun i => if i = 0 then "u0" else "u1")
        (some ([⟨"a.txt", [1], none⟩] ++
          ⟨"big.bin", List.replicate (maxFileSizeByte + 1) 0, none⟩ ::
            [⟨"c.txt", [3], none⟩]))
        ⟨true, "", []⟩ =
      ⟨413, [], ⟨true, "",
        [(mkKey "u0" "a.txt", ⟨[1], defaultContentType⟩)]⟩⟩ :=
  ⟨by simp,
   upload_batch_failure_keeps_earlier (fun i => if i = 0 then "u0" else "u1")
     [⟨"a.txt", [1], none⟩]
     ⟨"big.bin", List.replicate (maxFileSizeByte + 1) 0, none⟩
     [⟨"c.txt", [3], none⟩] ⟨true, "", []⟩ rfl
     (by
       intro q hq _
       rw [List.mem_singleton.mp hq]
       exact ⟨rfl, by norm_num [maxFileSizeByte, maxFileSizeMB]⟩)
     (by decide) (by simp)⟩

/-- C3 counterexample: the handler recognises the size-exceeded
condition by matching error message text, so a single-part upload whose
file is far below the ceiling (empty content) but whose client-stream
read error happens to carry the matched text is answered 413, not 500 -
refuting the claim that read errors always give 500 and that the
condition is a distinct error kind rather than string matching. -/
theorem uploadStatus_string_match_counterexample :
    ((([] : Bytes)).length ≤ maxFileSizeByte) ∧
    (uploadFilesHandler (fun _ => "u")
        (some [⟨"a.txt", [], some sizeExceededPattern⟩])
        ⟨true, "", []⟩).status = 413 := by
  refine ⟨by simp, ?_⟩
  have hprod : producerRun "a.txt" 0 [] (some sizeExceededPattern) =
      .aborted [] sizeExceededPattern := by
    rw [producerRun.eq_def]
  rw [uploadFilesHandler_single_error (fun _ => "u")
    ⟨"a.txt", [], some sizeExceededPattern⟩ ⟨true, "", []⟩ sizeExceededPattern
    (by decide)
    (by rw [hprod]; exact putObject_aborted _ _ _ [] _ rfl)]
  have hcontains : goStringContains sizeExceededPattern sizeExceededPattern = true :=
    hasSubstrChars_refl sizeExceededPattern.data
  rw [if_pos hcontains]

/-- C3 amended: the upload handler returns 413 exactly when the failed
put call's error message contains the text "exceeds the maximum allowed
size of 50MB" - string matching, not a structural error kind.  Every
genuine size-exceeded failure carries that text and is answered 413, but
a read error or backend error message containing the text is also
answered 413; failures whose message does not contain it are answered
500. -/
theorem uploadStatus_by_message (uuids : Nat → String) (p : Part) (b : Backend)
    (e : String) :
    (b.available = true → p.filename ≠ "" → maxFileSizeByte < p.content.length →
      uploadFilesHandler uuids (some [p]) b = ⟨413, [], b⟩) ∧
    (b.available = true → p.filename ≠ "" → p.readErr = some e →
      p.content.length ≤ maxFileSizeByte →
      uploadFilesHandler uuids (some [p]) b =
        if goStringContains e sizeExceededPattern then ⟨413, [], b⟩
        else ⟨500, [], b⟩) ∧
    (b.available = false → p.filename ≠ "" →
      uploadFilesHandler uuids (some [p]) b =
        if goStringContains b.errMsg sizeExceededPattern then ⟨413, [], b⟩
        else ⟨500, [], b⟩) := by
  refine ⟨?_, ?_, ?_⟩
  · intro hav hf hsize
    exact uploadFilesHandler_single_oversize uuids p b hav hf hsize
  · intro hav hf hre hsize
    rw [uploadFilesHandler_single_error uuids p b e hf ?hput]
    case hput =>
      rw [hre, producerRun_readErr p.filename e p.content 0 (by simpa using hsize)]
      exact putObject_aborted b _ _ p.content e hav
  · intro hav hf
    rw [uploadFilesHandler_single_error uuids p b b.errMsg hf
      (putObject_unavailable b _ _ _ hav)]

/-- Witness for `uploadStatus_by_message`: a read error without the
matched text gives 500, and an unavailable backend gives 500. -/
theorem uploadStatus_by_message_witness :
    uploadFilesHandler (fun _ => "u") (some [⟨"a.txt", [1], some "boom"⟩])
        ⟨true, "", []⟩ = ⟨500, [], ⟨true, "", []⟩⟩ ∧
    uploadFilesHandler (fun _ => "u") (some [⟨"a.txt", [1], none⟩])
        ⟨false, "backend down", []⟩ = ⟨500, [], ⟨false, "backend down", []⟩⟩ := by
  constructor
  · rw [(uploadStatus_by_message (fun _ => "u") ⟨"a.txt", [1], some "boom"⟩
      ⟨true, "", []⟩ "boom").2.1 rfl (by decide) rfl (by
        norm_num [maxFileSizeByte, maxFileSizeMB])]
    decide
  · rw [(uploadStatus_by_message (fun _ => "u") ⟨"a.txt", [1], none⟩
      ⟨false, "backend down", []⟩ "x").2.2 rfl (by decide)]
    decide

end FileStorage
